import Mathlib

/-!
# Verification of the yahtzee-rl Markov probability / keep-decision core

A shallow embedding of `src/yahtzee_rl` (the probabilistic decision engine:
`markov/probabilities.py`, `markov/lookaheads.py`, `scoring/ops.py`,
`scoring/scorecard.py` and the `Category` enumeration of `__init__.py`),
together with theorems settling the frozen claims about it.

Conventions of the embedding:
* Dice hands are `List ℕ` (Python `np.ndarray` of die values, order kept).
* Python floats are modelled as exact rationals `ℚ`; every constant in the
  source is an exact ratio of integers, so the real-number meaning of the code
  is captured without floating-point rounding.
* NumPy matrices over a fixed dimension `n` are `Fin n → Fin n → ℚ` (row then
  column); `np.linalg.matrix_power` is `matPow`, `@` on a vector is `matVec`.
* `Counter(dice)` is modelled by `List.count` for lookups and by `firstOccs`
  (keys in first-occurrence order, as Python dicts iterate) for iteration.
* Python's negative indexing (`initial_state[count - 1]` with `count = 0`
  selecting the last cell) is modelled explicitly, see `reaching_x`.
-/

/-! ## Category enumeration (`yahtzee_rl/__init__.py`) -/

inductive Category : Type
  | ACES | TWOS | THREES | FOURS | FIVES | SIXES
  | THREE_OF_A_KIND | FOUR_OF_A_KIND | FULL_HOUSE
  | SMALL_STRAIGHT | LARGE_STRAIGHT | YAHTZEE | CHANCE
deriving DecidableEq, Repr

/-- `Category.upper_categories()`. -/
def Category.upper_categories : List Category :=
  [.ACES, .TWOS, .THREES, .FOURS, .FIVES, .SIXES]

/-- `Category.lower_categories()`. -/
def Category.lower_categories : List Category :=
  [.THREE_OF_A_KIND, .FOUR_OF_A_KIND, .FULL_HOUSE,
   .SMALL_STRAIGHT, .LARGE_STRAIGHT, .YAHTZEE, .CHANCE]

/-- The string value of each member of the `StrEnum` (its `.value`). -/
def Category.value : Category → String
  | .ACES => "aces" | .TWOS => "twos" | .THREES => "threes"
  | .FOURS => "fours" | .FIVES => "fives" | .SIXES => "sixes"
  | .THREE_OF_A_KIND => "three_of_a_kind" | .FOUR_OF_A_KIND => "four_of_a_kind"
  | .FULL_HOUSE => "full_house" | .SMALL_STRAIGHT => "small_straight"
  | .LARGE_STRAIGHT => "large_straight" | .YAHTZEE => "yahtzee"
  | .CHANCE => "chance"

/-- `Category.is_valid(value)` / `Category(value)`: resolving a string token
against the enumeration.  A Python `StrEnum` member compares equal to its
string value, so a raw string flows through the `==` dispatch chains exactly
as the member it resolves to, and an unrecognized string matches no branch. -/
def Category.fromString (s : String) : Option Category :=
  if s = "aces" then some .ACES
  else if s = "twos" then some .TWOS
  else if s = "threes" then some .THREES
  else if s = "fours" then some .FOURS
  else if s = "fives" then some .FIVES
  else if s = "sixes" then some .SIXES
  else if s = "three_of_a_kind" then some .THREE_OF_A_KIND
  else if s = "four_of_a_kind" then some .FOUR_OF_A_KIND
  else if s = "full_house" then some .FULL_HOUSE
  else if s = "small_straight" then some .SMALL_STRAIGHT
  else if s = "large_straight" then some .LARGE_STRAIGHT
  else if s = "yahtzee" then some .YAHTZEE
  else if s = "chance" then some .CHANCE
  else none

/-! ## Scorecard (`scoring/scorecard.py`), read-only query surface -/

/-- One row of `Scorecard.score_board` (the `score_func` field is the plain
per-category scoring function, not used by the probability core). -/
structure CategoryEntry where
  marked : Bool
  score : ℕ
  num_times_achieved : ℕ
deriving DecidableEq, Repr

structure Scorecard where
  turn_number : ℕ
  score_board : Category → CategoryEntry

/-- `Scorecard.__init__` / `reset`: every category unmarked with score 0. -/
def freshScorecard : Scorecard :=
  ⟨0, fun _ => ⟨false, 0, 0⟩⟩

/-- `Scorecard.compute_upper_score`: marked upper-section scores, plus the
35-point bonus when the total reaches 63. -/
def Scorecard.compute_upper_score (sc : Scorecard) : ℕ :=
  let total_upper :=
    (Category.upper_categories.map
      (fun c => if (sc.score_board c).marked then (sc.score_board c).score else 0)).sum
  if 63 ≤ total_upper then total_upper + 35 else total_upper

/-- `Scorecard.compute_lower_score`: marked lower-section scores, plus 100 per
additional yahtzee beyond the first. -/
def Scorecard.compute_lower_score (sc : Scorecard) : ℕ :=
  let total_lower :=
    (Category.lower_categories.map
      (fun c => if (sc.score_board c).marked then (sc.score_board c).score else 0)).sum
  if 2 ≤ (sc.score_board .YAHTZEE).num_times_achieved then
    total_lower + 100 * ((sc.score_board .YAHTZEE).num_times_achieved - 1)
  else total_lower

/-- `Scorecard.compute_final_score`. -/
def Scorecard.compute_final_score (sc : Scorecard) : ℕ :=
  sc.compute_upper_score + sc.compute_lower_score

/-- Modelled from the spec: the scorecard query surface lists
`isMarked(category) → bool`; `probabilities.py` calls it as
`score_card.is_category_marked(move)` but `scoring/scorecard.py` does not
define the method.  Per the spec it reads the `marked` flag of the category's
scoreboard row. -/
def Scorecard.is_category_marked (sc : Scorecard) (c : Category) : Bool :=
  (sc.score_board c).marked

/-! ## Counter / dice helpers (`scoring/ops.py` and Python `Counter`) -/

/-- `dice_count(dice)[face]`: how many dice show `face` (a missing `Counter`
key reads as 0, exactly as `List.count`). -/
def dice_count (dice : List ℕ) (face : ℕ) : ℕ := dice.count face

/-- The keys of `Counter(l)` in iteration order: first-occurrence order of
`l`, as Python dicts preserve insertion order. -/
def firstOccs (l : List ℕ) : List ℕ := l.reverse.dedup.reverse

/-- `max(counts, key=counts.get)`: the first key (in `Counter` iteration
order) attaining the maximal count; Python's `max` keeps the earlier element
on ties.  Defaults to face 0 for an empty hand (where Python would raise). -/
def maxCountFace (dice : List ℕ) : ℕ :=
  match firstOccs dice with
  | [] => 0
  | k :: ks => ks.foldl (fun best f => if dice.count best < dice.count f then f else best) k

/-- `np.sum(dice)`. -/
def diceSum (dice : List ℕ) : ℕ := dice.sum

/-! ## Transition matrices (`markov/probabilities.py`, lines 470-517) -/

def matId {n : ℕ} : Fin n → Fin n → ℚ := fun i j => if i = j then 1 else 0

def matMul {n : ℕ} (A B : Fin n → Fin n → ℚ) : Fin n → Fin n → ℚ :=
  fun i j => ∑ k, A i k * B k j

/-- `np.linalg.matrix_power(A, r)`. -/
def matPow {n : ℕ} (A : Fin n → Fin n → ℚ) : ℕ → (Fin n → Fin n → ℚ)
  | 0 => matId
  | r + 1 => matMul (matPow A r) A

/-- `A @ v`. -/
def matVec {n : ℕ} (A : Fin n → Fin n → ℚ) (v : Fin n → ℚ) : Fin n → ℚ :=
  fun i => ∑ j, A i j * v j

/-- A one-hot state vector (`np.zeros(n)` with a single cell set to 1). -/
def oneHot {n : ℕ} (idx : Fin n) : Fin n → ℚ := fun i => if i = idx then 1 else 0

/-- `np.sum(v[t:])`. -/
def tailSum {n : ℕ} (v : Fin n → ℚ) (t : ℕ) : ℚ :=
  ∑ i : Fin n, if t ≤ i.val then v i else 0

/-- `runs_t_matrix()`: greedy single-face run-building over match counts 1-5. -/
def runs_t_matrix : Fin 5 → Fin 5 → ℚ :=
  ![![120/1296, 0, 0, 0, 0],
    ![900/1296, 120/216, 0, 0, 0],
    ![250/1296, 80/216, 25/36, 0, 0],
    ![25/1296, 15/216, 10/36, 5/6, 0],
    ![1/1296, 1/216, 1/36, 1/6, 1]]

/-- `straight_t_matrix()`: small-straight coverage states. -/
def straight_t_matrix : Fin 4 → Fin 4 → ℚ :=
  ![![108/1296, 0, 0, 0],
    ![525/1296, 64/216, 0, 0],
    ![582/1296, 122/216, 25/36, 0],
    ![108/1296, 30/216, 11/36, 1]]

/-- `large_straight_t_matrix()`: large-straight coverage states. -/
def large_straight_t_matrix : Fin 5 → Fin 5 → ℚ :=
  ![![16/1296, 0, 0, 0, 0],
    ![260/1296, 27/216, 0, 0, 0],
    ![600/1296, 111/216, 16/36, 0, 0],
    ![336/1296, 72/216, 18/36, 5/6, 0],
    ![24/1296, 6/216, 2/36, 1/6, 1]]

/-- `upper_count_t_matrix()`: upper-section face counts 0-5. -/
def upper_count_t_matrix : Fin 6 → Fin 6 → ℚ :=
  ![![3125/7776, 0, 0, 0, 0, 0],
    ![3125/7776, 625/1296, 0, 0, 0, 0],
    ![625/3888, 125/324, 125/216, 0, 0, 0],
    ![125/3888, 25/216, 25/72, 25/36, 0, 0],
    ![25/7776, 5/324, 5/72, 5/18, 5/6, 0],
    ![1/7776, 1/1296, 1/216, 1/36, 1/6, 1]]

/-! ## Probability engine (`markov/probabilities.py`) -/

/-- `faces`: the upper-section category → die-face dictionary; `none` models
a key that is not in the dict. -/
def faces : Category → Option ℕ
  | .ACES => some 1 | .TWOS => some 2 | .THREES => some 3
  | .FOURS => some 4 | .FIVES => some 5 | .SIXES => some 6
  | _ => none

/-- `LOWER_FIXED_SCORES`. -/
def LOWER_FIXED_SCORES : Category → Option ℕ
  | .FULL_HOUSE => some 25 | .SMALL_STRAIGHT => some 30
  | .LARGE_STRAIGHT => some 40 | .YAHTZEE => some 50
  | _ => none

/-- `reaching_x(dice, dice_number, target_state, remaining_rolls)`:
project the one-hot run state at index `count - 1` through
`runs_t_matrix ^ remaining_rolls` and sum the tail mass from `target_state`.
Python writes `initial_state[count - 1] = 1`: when `count = 0` the index `-1`
silently selects the LAST (absorbing five-of-a-kind) cell, which
`(count + 4) % 5` reproduces; counts above 5 cannot arise from a 5-die hand
(there Python would raise an IndexError). -/
def reaching_x (dice : List ℕ) (dice_number target_state remaining_rolls : ℕ) : ℚ :=
  let count := dice_count dice dice_number
  let idx : Fin 5 := ⟨(count + 4) % 5, Nat.mod_lt _ (by norm_num)⟩
  let state_vec := matVec (matPow runs_t_matrix remaining_rolls) (oneHot idx)
  tailSum state_vec target_state

/-- `upper_section_markov(dice, category, remaining_rolls)`: the expected
matching count and the distribution over counts 0-5.  The one-hot index is
the current count of the category's face (`count % 6 = count` for a 5-die
hand; a non-upper category, where Python's `faces[category]` would raise,
reads face 0). -/
def upper_section_markov (dice : List ℕ) (category : Category)
    (remaining_rolls : ℕ) : ℚ × (Fin 6 → ℚ) :=
  let count := dice_count dice ((faces category).getD 0)
  let idx : Fin 6 := ⟨count % 6, Nat.mod_lt _ (by norm_num)⟩
  let dist := matVec (matPow upper_count_t_matrix remaining_rolls) (oneHot idx)
  (∑ i : Fin 6, (i.val : ℚ) * dist i, dist)

/-- `determine_straight_state(dice, straight)`: `np.intersect1d(dice,
straight).size`, the number of distinct values common to both. -/
def determine_straight_state (dice straight : List ℕ) : ℕ :=
  ((dice.filter (fun d => straight.contains d)).dedup).length

/-- The `for possible in possibles` loop of
`determine_small_straight_probability`: the first window with nonzero overlap
decides the result; `l_state ∈ {1,2,3}` projects the one-hot coverage state at
index `l_state - 1` (written `(l_state + 3) % 4`) and reads the terminal mass. -/
def smallStraightLoop (dice : List ℕ) (remaining_rolls : ℕ) : List (List ℕ) → ℚ
  | [] => 0
  | w :: ws =>
    let l_state := determine_straight_state dice w
    if 1 ≤ l_state then
      if l_state = 4 then 1
      else
        matVec (matPow straight_t_matrix remaining_rolls)
          (oneHot ⟨(l_state + 3) % 4, Nat.mod_lt _ (by norm_num)⟩) 3
    else smallStraightLoop dice remaining_rolls ws

/-- `determine_small_straight_probability(dice, remaining_rolls)`. -/
def determine_small_straight_probability (dice : List ℕ) (remaining_rolls : ℕ) : ℚ :=
  smallStraightLoop dice remaining_rolls [[1, 2, 3, 4], [2, 3, 4, 5], [3, 4, 5, 6]]

/-- The window loop of `determine_large_straight_probability`. -/
def largeStraightLoop (dice : List ℕ) (remaining_rolls : ℕ) : List (List ℕ) → ℚ
  | [] => 0
  | w :: ws =>
    let l_state := determine_straight_state dice w
    if 1 ≤ l_state then
      if l_state = 5 then 1
      else
        matVec (matPow large_straight_t_matrix remaining_rolls)
          (oneHot ⟨(l_state + 4) % 5, Nat.mod_lt _ (by norm_num)⟩) 4
    else largeStraightLoop dice remaining_rolls ws

/-- `determine_large_straight_probability(dice, remaining_rolls)`. -/
def determine_large_straight_probability (dice : List ℕ) (remaining_rolls : ℕ) : ℚ :=
  largeStraightLoop dice remaining_rolls [[1, 2, 3, 4, 5], [2, 3, 4, 5, 6]]

/-- `simple_three_of_a_kind(dice, dice_number, remaining_rolls)`. -/
def simple_three_of_a_kind (dice : List ℕ) (dice_number remaining_rolls : ℕ) : ℚ :=
  if 3 ≤ dice_count dice dice_number then 1
  else reaching_x dice dice_number 2 remaining_rolls

/-- `simple_four_of_a_kind(dice, dice_number, remaining_rolls)`. -/
def simple_four_of_a_kind (dice : List ℕ) (dice_number remaining_rolls : ℕ) : ℚ :=
  if 4 ≤ dice_count dice dice_number then 1
  else reaching_x dice dice_number 3 remaining_rolls

/-- Descending insertion used to model Python's `sorted(..., reverse=True)`. -/
def insertDesc (x : ℕ) : List ℕ → List ℕ
  | [] => [x]
  | y :: ys => if y ≤ x then x :: y :: ys else y :: insertDesc x ys

/-- Descending sort (insertion sort; the source only reads the two heads). -/
def sortDesc : List ℕ → List ℕ
  | [] => []
  | x :: xs => insertDesc x (sortDesc xs)

/-- `sorted(counts.values(), reverse=True)` padded with zeros `while len < 2`
(the `full_house` preamble). -/
def sorted_counts (dice : List ℕ) : List ℕ :=
  let s := sortDesc ((firstOccs dice).map (fun k => dice.count k))
  s ++ List.replicate (2 - s.length) 0

/-- `full_house(dice, remaining_rolls)`: ranked case split on the sorted
face counts. -/
def full_house (dice : List ℕ) (remaining_rolls : ℕ) : ℚ :=
  let sc := sorted_counts dice
  let c0 := sc.headD 0
  let c1 := (sc.drop 1).headD 0
  if 3 ≤ c0 ∧ 2 ≤ c1 then 1
  else if 3 ≤ c0 then 1 - (5 / 6 : ℚ) ^ remaining_rolls
  else if 2 ≤ c0 ∧ 2 ≤ c1 then 1 - (4 / 6 : ℚ) ^ remaining_rolls
  else if 2 ≤ c0 then
    reaching_x dice (maxCountFace dice) 2 remaining_rolls *
      (1 - (120 / 216 : ℚ) ^ remaining_rolls)
  else (5 / 100 : ℚ) * remaining_rolls

/-- `yahtzee(dice, remaining_rolls)` (the probability function, not the
scoring one): run-building toward 5 of the most frequent face. -/
def yahtzee (dice : List ℕ) (remaining_rolls : ℕ) : ℚ :=
  reaching_x dice (maxCountFace dice) 4 remaining_rolls

/-- `lower_section_probabilities(dice, score_card, move, remaining_rolls)`:
the `if/elif` dispatch.  Note the SMALL_STRAIGHT arm carries no
`not _is_marked` guard in the source, and the fall-through returns 0.0. -/
def lower_section_probabilities (dice : List ℕ) (score_card : Scorecard)
    (move : Category) (remaining_rolls : ℕ) : ℚ :=
  if move = .THREE_OF_A_KIND ∧ ¬ score_card.is_category_marked move then
    simple_three_of_a_kind dice (maxCountFace dice) remaining_rolls
  else if move = .FOUR_OF_A_KIND ∧ ¬ score_card.is_category_marked move then
    simple_four_of_a_kind dice (maxCountFace dice) remaining_rolls
  else if move = .FULL_HOUSE ∧ ¬ score_card.is_category_marked move then
    full_house dice remaining_rolls
  else if move = .SMALL_STRAIGHT then
    determine_small_straight_probability dice remaining_rolls
  else if move = .LARGE_STRAIGHT ∧ ¬ score_card.is_category_marked move then
    determine_large_straight_probability dice remaining_rolls
  else if move = .YAHTZEE ∧ ¬ score_card.is_category_marked move then
    yahtzee dice remaining_rolls
  else if move = .CHANCE ∧ ¬ score_card.is_category_marked move then 1
  else 0

/-- `upper_section_probability(dice, score_card, move, remaining_rolls)`:
`np.sum(dist[3:])`, or 0.0 for a marked or non-upper move. -/
def upper_section_probability (dice : List ℕ) (score_card : Scorecard)
    (move : Category) (remaining_rolls : ℕ) : ℚ :=
  if (faces move).isNone ∨ score_card.is_category_marked move then 0
  else tailSum (upper_section_markov dice move remaining_rolls).2 3

/-- The normalizing denominator `remaining if remaining > 0 else 375.0`
shared by both expected-score functions. -/
def denominator375 (score_card : Scorecard) : ℚ :=
  let remaining : ℚ := 375 - (score_card.compute_final_score : ℚ)
  if 0 < remaining then remaining else 375

/-- The urgency weight `denom = .2 * (top_remaining / upper_score_max)` of
`upper_section_expected_score`. -/
def urgency_weight (score_card : Scorecard) : ℚ :=
  (2 / 10 : ℚ) * ((63 - (score_card.compute_upper_score : ℚ)) / 63)

/-- `upper_section_expected_score(dice, score_card, move, remaining_rolls)`. -/
def upper_section_expected_score (dice : List ℕ) (score_card : Scorecard)
    (move : Category) (remaining_rolls : ℕ) : ℚ :=
  let denominator := denominator375 score_card
  let denom := urgency_weight score_card
  if (faces move).isNone ∨ score_card.is_category_marked move then 0
  else
    let exp_count := (upper_section_markov dice move remaining_rolls).1
    (((faces move).getD 0 : ℚ) * exp_count * (1 + denom)) / denominator

/-- `lower_section_expected_score(dice, score_card, move, remaining_rolls)`.
Note the CHANCE arm pays `sum(dice) / denominator` without consulting the
marked flag (its docstring says "0.0 if marked"). -/
def lower_section_expected_score (dice : List ℕ) (score_card : Scorecard)
    (move : Category) (remaining_rolls : ℕ) : ℚ :=
  let denominator := denominator375 score_card
  if move ∉ Category.lower_categories then 0
  else if move = .YAHTZEE then
    let yahtzee_achieved := (score_card.score_board .YAHTZEE).num_times_achieved
    let raw_prob := yahtzee dice remaining_rolls
    if score_card.is_category_marked .YAHTZEE then
      if 1 ≤ yahtzee_achieved then raw_prob * 100 / denominator else 0
    else raw_prob * 50 / denominator
  else
    let prob := lower_section_probabilities dice score_card move remaining_rolls
    if (LOWER_FIXED_SCORES move).isSome then
      prob * ((LOWER_FIXED_SCORES move).getD 0 : ℚ) / denominator
    else if move = .THREE_OF_A_KIND ∨ move = .FOUR_OF_A_KIND then
      prob * (diceSum dice : ℚ) / denominator
    else if move = .CHANCE then (diceSum dice : ℚ) / denominator
    else 0

/-- String-token entry into `lower_section_probabilities`: a `StrEnum`
member equals its value string, so a recognized token hits the matching
branch and an unrecognized one falls through every `==` test to the final
`return 0.0`. -/
def lower_section_probabilities_str (dice : List ℕ) (score_card : Scorecard)
    (move : String) (remaining_rolls : ℕ) : ℚ :=
  match Category.fromString move with
  | some c => lower_section_probabilities dice score_card c remaining_rolls
  | none => 0

/-! ## Keep advisor (`markov/lookaheads.py`) -/

/-- `UPPER_SECTION_MAP` (the module keeps its own copy of the face dict). -/
def UPPER_SECTION_MAP : Category → Option ℕ
  | .ACES => some 1 | .TWOS => some 2 | .THREES => some 3
  | .FOURS => some 4 | .FIVES => some 5 | .SIXES => some 6
  | _ => none

/-- `[(k, v) for k, v in dice_count(combined).items()]`: the counter items in
insertion order. -/
def counterItems (l : List ℕ) : List (ℕ × ℕ) :=
  (firstOccs l).map (fun k => (k, l.count k))

/-- `reduce(lambda x, y: x if x[1] > y[1] else y, items)`: the LAST item
attaining the maximal count (reduce keeps the newcomer on ties).  Defaults to
`(0, 0)` for an empty item list, where Python's `reduce` would raise. -/
def reduceMaxItem (items : List (ℕ × ℕ)) : ℕ × ℕ :=
  match items with
  | [] => (0, 0)
  | p :: ps => ps.foldl (fun x y => if y.2 < x.2 then x else y) p

/-- The masked walk of the straight branches: walking the roll in order, keep
(`false`, Python mask 0) a die whose value is still wanted and consume that
value (`first_not_in = first_not_in[~np.isin(first_not_in, [d])]` removes
every copy of `d`); otherwise leave the die up for reroll (`true`, mask 1). -/
def straight_keep_mask : List ℕ → List ℕ → List Bool
  | _, [] => []
  | avail, d :: ds =>
    if avail.contains d then
      false :: straight_keep_mask (avail.filter (fun v => v ≠ d)) ds
    else true :: straight_keep_mask avail ds

/-- The Python mask over `dice` (1 = reroll, 0 = keep) built by the
per-category `if/elif` chain of `determine_keep_positions`. -/
def keep_mask (dice withheld : List ℕ) (move : Category) : List Bool :=
  let combined := dice ++ withheld
  if (UPPER_SECTION_MAP move).isSome then
    let target := (UPPER_SECTION_MAP move).getD 0
    dice.map (fun d => ! (d == target))
  else if move = .THREE_OF_A_KIND ∨ move = .FOUR_OF_A_KIND ∨ move = .YAHTZEE then
    let max_val := (reduceMaxItem (counterItems combined)).1
    dice.map (fun d => ! (d == max_val))
  else if move = .FULL_HOUSE then
    let max_val := (reduceMaxItem (counterItems combined)).1
    let second_items := (counterItems combined).filter (fun p => p.1 ≠ max_val)
    if second_items.isEmpty then dice.map (fun d => ! (d == max_val))
    else
      let max_val_second := (reduceMaxItem second_items).1
      dice.map (fun d => ! (d == max_val || d == max_val_second))
  else if move = .SMALL_STRAIGHT then
    let l_first := determine_straight_state combined [1, 2, 3, 4]
    let l_second := determine_straight_state combined [2, 3, 4, 5]
    let l_third := determine_straight_state combined [3, 4, 5, 6]
    let closest := max l_first (max l_second l_third)
    if closest = l_first then
      straight_keep_mask ([1, 2, 3, 4].filter (fun v => ¬ withheld.contains v)) dice
    else if closest = l_second then
      straight_keep_mask ([2, 3, 4, 5].filter (fun v => ¬ withheld.contains v)) dice
    else if closest = l_third then
      straight_keep_mask ([3, 4, 5, 6].filter (fun v => ¬ withheld.contains v)) dice
    else List.replicate dice.length true
  else if move = .LARGE_STRAIGHT then
    let l_first := determine_straight_state combined [1, 2, 3, 4, 5]
    let l_second := determine_straight_state combined [2, 3, 4, 5, 6]
    let closest := max l_first l_second
    if closest = l_first then
      straight_keep_mask ([1, 2, 3, 4, 5].filter (fun v => ¬ withheld.contains v)) dice
    else if closest = l_second then
      straight_keep_mask ([2, 3, 4, 5, 6].filter (fun v => ¬ withheld.contains v)) dice
    else List.replicate dice.length true
  else if move = .CHANCE then
    let max_d := combined.foldl max 0
    dice.map (fun d => decide (d < max_d))
  else List.replicate dice.length true

/-- `ma.array(dice, mask=mask).compressed()` with Python's convention that a
mask value 1 hides the cell: the dice at mask `false`, in order. -/
def maskKeep : List ℕ → List Bool → List ℕ
  | [], _ => []
  | _ :: _, [] => []
  | d :: ds, m :: ms => if m then maskKeep ds ms else d :: maskKeep ds ms

/-- The complement selection (`np.logical_not(mask)`): dice at mask `true`. -/
def maskDrop : List ℕ → List Bool → List ℕ
  | [], _ => []
  | _ :: _, [] => []
  | d :: ds, m :: ms => if m then d :: maskDrop ds ms else maskDrop ds ms

/-- `determine_keep_positions(dice, withheld, move)` for a recognized
category: `(np.concatenate((withheld, kept)), remaining)`. -/
def determine_keep_positions (dice withheld : List ℕ) (move : Category) :
    List ℕ × List ℕ :=
  let mask := keep_mask dice withheld move
  (withheld ++ maskKeep dice mask, maskDrop dice mask)

/-- `determine_keep_positions` called with a string token: the
`isinstance(move, str)` validation raises `ValueError` on an unrecognized
token and otherwise converts to the enum member. -/
def determine_keep_positions_str (dice withheld : List ℕ) (move : String) :
    Except String (List ℕ × List ℕ) :=
  match Category.fromString move with
  | none => Except.error ("Invalid category " ++ move)
  | some c => Except.ok (determine_keep_positions dice withheld c)

/-! ## `combo_satisfied` (`scoring/ops.py`) -/

/-- Stable descending insertion on counter items, ordered by count. -/
def insertCountDesc (x : ℕ × ℕ) : List (ℕ × ℕ) → List (ℕ × ℕ)
  | [] => [x]
  | y :: ys => if x.2 < y.2 then y :: insertCountDesc x ys else x :: y :: ys

/-- Stable descending sort on counter items by count (Python's `sorted` and
hence `Counter.most_common` are stable). -/
def sortCountDesc : List (ℕ × ℕ) → List (ℕ × ℕ)
  | [] => []
  | x :: xs => insertCountDesc x (sortCountDesc xs)

/-- `dice_count(dice).most_common(2)`. -/
def most_common2 (dice : List ℕ) : List (ℕ × ℕ) :=
  (sortCountDesc (counterItems dice)).take 2

/-- `combo_satisfied(dice, move)`: whether a lower-section combination is
already present (the scoring test; upper moves fall through to `False`). -/
def combo_satisfied (dice : List ℕ) (move : Category) : Bool :=
  match move with
  | .THREE_OF_A_KIND => (counterItems dice).any (fun p => 3 ≤ p.2)
  | .FOUR_OF_A_KIND => (counterItems dice).any (fun p => 4 ≤ p.2)
  | .FULL_HOUSE => (most_common2 dice).all (fun p => p.2 == 3 || p.2 == 2)
  | .SMALL_STRAIGHT =>
      determine_straight_state dice [1, 2, 3, 4] == 4 ||
      determine_straight_state dice [2, 3, 4, 5] == 4 ||
      determine_straight_state dice [3, 4, 5, 6] == 4
  | .LARGE_STRAIGHT =>
      determine_straight_state dice [1, 2, 3, 4, 5] == 5 ||
      determine_straight_state dice [2, 3, 4, 5, 6] == 5
  | .YAHTZEE => (counterItems dice).any (fun p => p.2 == 5)
  | .CHANCE => true
  | _ => false

/-! ## Spec-side definitions

Definitions written from the wording of the specification / claims, to be
compared with the source-derived definitions above. -/

/-- From the spec's wording of the full-house derivation: "ranked case split
on sorted combined face counts (padded with zeros to length ≥ 2)" with the
five ranked cases, the pair face for case 4 being the most frequent face. -/
def fullHouseSpec (dice : List ℕ) (r : ℕ) : ℚ :=
  let counts := sorted_counts dice
  let c0 := counts.headD 0
  let c1 := (counts.drop 1).headD 0
  if 3 ≤ c0 ∧ 2 ≤ c1 then 1
  else if 3 ≤ c0 then 1 - (5 / 6 : ℚ) ^ r
  else if 2 ≤ c0 ∧ 2 ≤ c1 then 1 - (4 / 6 : ℚ) ^ r
  else if 2 ≤ c0 then
    reaching_x dice (maxCountFace dice) 2 r * (1 - (120 / 216 : ℚ) ^ r)
  else (5 / 100 : ℚ) * r

/-- From the claim's wording: "combined-coverage (count of distinct window
values present)" — the window values (themselves distinct) present in the
combined dice. -/
def windowCoverage (combined window : List ℕ) : ℕ :=
  (window.filter (fun v => combined.contains v)).length

/-- From the claim's wording: "in roll order, keep the first rolled die
matching each still-uncovered window value, consuming each missing value at
most once" — the kept dice. -/
def greedyKeepDice : List ℕ → List ℕ → List ℕ
  | _, [] => []
  | missing, d :: ds =>
    if missing.contains d then d :: greedyKeepDice (missing.filter (fun v => v ≠ d)) ds
    else greedyKeepDice missing ds

/-- The dice the greedy walk does not keep, in roll order. -/
def greedyRerollDice : List ℕ → List ℕ → List ℕ
  | _, [] => []
  | missing, d :: ds =>
    if missing.contains d then greedyRerollDice (missing.filter (fun v => v ≠ d)) ds
    else d :: greedyRerollDice missing ds

/-- From the claim's wording of the small-straight keep rule: scan the
windows 1-4, 2-5, 3-6 in that order, pick the first window attaining the
maximum combined coverage (ties favor the earlier window), then greedily keep
dice matching window values not already withheld. -/
def smallStraightKeepSpec (dice withheld : List ℕ) : List ℕ × List ℕ :=
  let combined := dice ++ withheld
  let c1 := windowCoverage combined [1, 2, 3, 4]
  let c2 := windowCoverage combined [2, 3, 4, 5]
  let c3 := windowCoverage combined [3, 4, 5, 6]
  let best := max c1 (max c2 c3)
  let window :=
    if c1 = best then [1, 2, 3, 4]
    else if c2 = best then [2, 3, 4, 5]
    else [3, 4, 5, 6]
  let missing := window.filter (fun v => ¬ withheld.contains v)
  (withheld ++ greedyKeepDice missing dice, greedyRerollDice missing dice)

/-- Whether the first window of nonzero overlap (in declared scan order) is
already fully covered — the condition under which the straight probability
functions return 1.0. -/
def firstNonzeroWindowFull (dice : List ℕ) (ws : List (List ℕ)) (full : ℕ) : Bool :=
  match ws with
  | [] => false
  | w :: rest =>
    if 1 ≤ determine_straight_state dice w then
      determine_straight_state dice w == full
    else firstNonzeroWindowFull dice rest full

/-- The C1 amendment's per-category test of "already satisfies the category
outright": a face count reaching the kind threshold, a full house on the
sorted counts, five matching dice for Yahtzee, chance always — and, for the
straights, full coverage of the FIRST window with nonzero overlap (the
source's window scans stop at the first overlapping window). -/
def lowerSatisfiedOutright (dice : List ℕ) : Category → Bool
  | .THREE_OF_A_KIND => dice.any (fun d => 3 ≤ dice.count d)
  | .FOUR_OF_A_KIND => dice.any (fun d => 4 ≤ dice.count d)
  | .FULL_HOUSE =>
      decide (3 ≤ (sorted_counts dice).headD 0 ∧
              2 ≤ ((sorted_counts dice).drop 1).headD 0)
  | .SMALL_STRAIGHT =>
      firstNonzeroWindowFull dice [[1, 2, 3, 4], [2, 3, 4, 5], [3, 4, 5, 6]] 4
  | .LARGE_STRAIGHT =>
      firstNonzeroWindowFull dice [[1, 2, 3, 4, 5], [2, 3, 4, 5, 6]] 5
  | .YAHTZEE => dice.any (fun d => dice.count d = 5)
  | .CHANCE => true
  | _ => false

/-! ## Helper lemmas: column-stochastic matrices and one-hot projections -/

/-- A column-stochastic matrix: non-negative entries, every column summing
to 1 (under `A @ v` with a column distribution `v`, this is what makes the
result a distribution again). -/
def colStochastic {n : ℕ} (A : Fin n → Fin n → ℚ) : Prop :=
  (∀ i j, 0 ≤ A i j) ∧ (∀ j, ∑ i, A i j = 1)

lemma colStochastic_matId {n : ℕ} : colStochastic (matId (n := n)) := by
  constructor
  · intro i j
    unfold matId
    split <;> norm_num
  · intro j
    unfold matId
    simp

lemma colStochastic_matMul {n : ℕ} {A B : Fin n → Fin n → ℚ}
    (hA : colStochastic A) (hB : colStochastic B) : colStochastic (matMul A B) := by
  constructor
  · intro i j
    exact Finset.sum_nonneg fun k _ => mul_nonneg (hA.1 i k) (hB.1 k j)
  · intro j
    unfold matMul
    rw [Finset.sum_comm]
    calc (∑ k, ∑ i, A i k * B k j) = ∑ k, (∑ i, A i k) * B k j := by
          refine Finset.sum_congr rfl fun k _ => ?_
          rw [← Finset.sum_mul]
      _ = ∑ k, B k j := by
          refine Finset.sum_congr rfl fun k _ => ?_
          rw [hA.2 k, one_mul]
      _ = 1 := hB.2 j

lemma colStochastic_matPow {n : ℕ} {A : Fin n → Fin n → ℚ}
    (hA : colStochastic A) (r : ℕ) : colStochastic (matPow A r) := by
  induction r with
  | zero => exact colStochastic_matId
  | succ r ih => exact colStochastic_matMul ih hA

lemma runs_colStochastic : colStochastic runs_t_matrix := by
  constructor
  · intro i j
    fin_cases i <;> fin_cases j <;> norm_num [runs_t_matrix]
  · intro j
    fin_cases j <;> simp [runs_t_matrix, Fin.sum_univ_succ] <;> norm_num

lemma upper_colStochastic : colStochastic upper_count_t_matrix := by
  constructor
  · intro i j
    fin_cases i <;> fin_cases j <;> norm_num [upper_count_t_matrix]
  · intro j
    fin_cases j
    · simp [upper_count_t_matrix, Fin.sum_univ_succ]; norm_num
    · simp [upper_count_t_matrix, Fin.sum_univ_succ]; norm_num
    · simp [upper_count_t_matrix, Fin.sum_univ_succ]; norm_num
    · simp [upper_count_t_matrix, Fin.sum_univ_succ]; norm_num
    · simp [upper_count_t_matrix, Fin.sum_univ_succ]; norm_num
    · rw [Fin.sum_univ_six]
      show (0 : ℚ) + 0 + 0 + 0 + 0 + 1 = 1
      norm_num

/-- Applying a matrix to a one-hot vector reads off a column. -/
lemma matVec_oneHot {n : ℕ} (A : Fin n → Fin n → ℚ) (idx : Fin n) (i : Fin n) :
    matVec A (oneHot idx) i = A i idx := by
  unfold matVec oneHot
  rw [Finset.sum_eq_single idx]
  · simp
  · intro b _ hb
    simp [hb]
  · intro h
    exact absurd (Finset.mem_univ idx) h

/-- Tail mass of a column of a column-stochastic matrix lies in [0, 1]. -/
lemma tailSum_col_bounds {n : ℕ} {A : Fin n → Fin n → ℚ} (hA : colStochastic A)
    (idx : Fin n) (t : ℕ) :
    0 ≤ tailSum (matVec A (oneHot idx)) t ∧ tailSum (matVec A (oneHot idx)) t ≤ 1 := by
  unfold tailSum
  constructor
  · refine Finset.sum_nonneg fun i _ => ?_
    rw [matVec_oneHot]
    split
    · exact hA.1 i idx
    · exact le_refl 0
  · calc (∑ i : Fin n, if t ≤ i.val then matVec A (oneHot idx) i else 0)
        ≤ ∑ i : Fin n, A i idx := by
          refine Finset.sum_le_sum fun i _ => ?_
          rw [matVec_oneHot]
          split
          · exact le_refl _
          · exact hA.1 i idx
      _ = 1 := hA.2 idx

/-- `reaching_x` always lands in [0, 1]: it is a tail mass of a distribution
obtained from the column-stochastic run matrix. -/
lemma reaching_x_bounds (dice : List ℕ) (f t r : ℕ) :
    0 ≤ reaching_x dice f t r ∧ reaching_x dice f t r ≤ 1 := by
  unfold reaching_x
  exact tailSum_col_bounds (colStochastic_matPow runs_colStochastic r) _ t

/-- The last run state is absorbing: column 4 of `runs_t_matrix` is one-hot. -/
lemma runs_absorbing_col (i : Fin 5) :
    runs_t_matrix i 4 = if i = 4 then 1 else 0 := by
  fin_cases i <;> rfl

/-- Column 4 of every power of the run matrix stays one-hot at the absorbing
state. -/
lemma matPow_runs_absorbing (r : ℕ) (i : Fin 5) :
    matPow runs_t_matrix r i 4 = if i = 4 then 1 else 0 := by
  induction r with
  | zero =>
    unfold matPow matId
    rfl
  | succ r ih =>
    show matMul (matPow runs_t_matrix r) runs_t_matrix i 4 = _
    unfold matMul
    rw [Finset.sum_eq_single (4 : Fin 5)]
    · rw [runs_absorbing_col, ih]
      simp
    · intro b _ hb
      rw [runs_absorbing_col]
      simp [hb]
    · intro h
      exact absurd (Finset.mem_univ _) h

/-! ## C10: `reaching_x` at a zero face count -/

/-- C10: when the hand holds no die of the requested face, the one-hot
initial state lands on index `count - 1 = -1`, i.e. the last (absorbing
five-of-a-kind) run state, so `reaching_x` returns the full tail mass 1.0
for every target state 0..4 and every number of remaining rolls, instead of
raising or returning a small probability. -/
theorem c10_reaching_x_zero_count (dice : List ℕ) (face target_state r : ℕ)
    (hc : dice_count dice face = 0) (ht : target_state ≤ 4) :
    reaching_x dice face target_state r = 1 := by
  simp only [reaching_x, hc]
  have hidx : (⟨(0 + 4) % 5, Nat.mod_lt _ (by norm_num)⟩ : Fin 5) = (4 : Fin 5) := rfl
  rw [hidx]
  unfold tailSum
  rw [Fin.sum_univ_five]
  rw [matVec_oneHot, matVec_oneHot, matVec_oneHot, matVec_oneHot, matVec_oneHot]
  rw [matPow_runs_absorbing, matPow_runs_absorbing, matPow_runs_absorbing,
    matPow_runs_absorbing, matPow_runs_absorbing]
  have h4 : ((4 : Fin 5) : ℕ) = 4 := rfl
  simp [h4, ht]

/-- Witness for C10 at the concrete hand [2,3,4,5,6] with face 1. -/
theorem c10_reaching_x_zero_count_witness :
    reaching_x [2, 3, 4, 5, 6] 1 0 2 = 1 :=
  c10_reaching_x_zero_count [2, 3, 4, 5, 6] 1 0 2 (by decide) (by decide)

/-! ## C2: the straight transition matrices are not stochastic -/

/-- C2 (code bug): the first column of the small-straight matrix sums to
1323/1296 and the first column of the large-straight matrix to 1236/1296, so
neither matrix is column-stochastic; the run and upper-count matrices do have
unit column sums.  Projecting the one-hot coverage-1 state through either
straight matrix therefore does not yield a probability distribution. -/
theorem c2_straight_columns_not_stochastic :
    (∑ i, straight_t_matrix i 0) = 1323 / 1296 ∧
    (1323 / 1296 : ℚ) ≠ 1 ∧
    (∑ i, large_straight_t_matrix i 0) = 1236 / 1296 ∧
    (1236 / 1296 : ℚ) ≠ 1 ∧
    (∀ j, ∑ i, runs_t_matrix i j = 1) ∧
    (∀ j, ∑ i, upper_count_t_matrix i j = 1) := by
  refine ⟨?_, by norm_num, ?_, by norm_num, runs_colStochastic.2, upper_colStochastic.2⟩
  · simp [straight_t_matrix, Fin.sum_univ_succ]
    norm_num
  · simp [large_straight_t_matrix, Fin.sum_univ_succ]
    norm_num

/-! ## C1: outright satisfaction vs. the first-window scan -/

/-- C1 counterexample: the hand [1,3,4,5,6] satisfies a small straight
outright (its window 3-6 is fully covered, as the scoring test
`combo_satisfied` confirms), yet with 0 rolls remaining the probability
function returns 0.0, not 1.0: the window scan stops at window 1-4, whose
overlap {1,3,4} is nonzero but incomplete. -/
theorem c1_counterexample :
    combo_satisfied [1, 3, 4, 5, 6] .SMALL_STRAIGHT = true ∧
    determine_small_straight_probability [1, 3, 4, 5, 6] 0 = 0 := by
  refine ⟨by decide, ?_⟩
  have h1 : determine_straight_state [1, 3, 4, 5, 6] [1, 2, 3, 4] = 3 := by decide
  simp only [determine_small_straight_probability, smallStraightLoop, h1]
  norm_num
  rw [matVec_oneHot]
  rfl

/-! ## C3: marked categories and the expected-score features -/

/-- A scorecard with only the small straight marked (scored 30, once). -/
def cardMarkedSS : Scorecard :=
  ⟨0, fun c => if c = .SMALL_STRAIGHT then ⟨true, 30, 1⟩ else ⟨false, 0, 0⟩⟩

/-- C3 (code bug): `lower_section_expected_score` pays a marked small
straight.  With the small straight marked (30 points, final score 30,
denominator 345) and the hand [1,2,3,4,6], the feature is 30/345 = 2/23,
not the 0.0 the spec and the function's docstring promise: the SMALL_STRAIGHT
arm of `lower_section_probabilities` carries no marked-check. -/
theorem c3_marked_small_straight_pays :
    cardMarkedSS.is_category_marked .SMALL_STRAIGHT = true ∧
    lower_section_expected_score [1, 2, 3, 4, 6] cardMarkedSS .SMALL_STRAIGHT 0 = 2 / 23 ∧
    (2 / 23 : ℚ) ≠ 0 := by
  refine ⟨by decide, ?_, by norm_num⟩
  have hfin : cardMarkedSS.compute_final_score = 30 := by decide
  have hprob : determine_small_straight_probability [1, 2, 3, 4, 6] 0 = 1 := by
    have h1 : determine_straight_state [1, 2, 3, 4, 6] [1, 2, 3, 4] = 4 := by decide
    simp only [determine_small_straight_probability, smallStraightLoop, h1]
    norm_num
  have hmem : Category.SMALL_STRAIGHT ∈ Category.lower_categories := by decide
  simp [lower_section_expected_score, lower_section_probabilities,
    denominator375, hfin, hprob, hmem, LOWER_FIXED_SCORES]
  norm_num

/-! ## C4: invalid category tokens -/

/-- C4 counterexample: an unrecognized category token does NOT raise out of
the probability lookup — `lower_section_probabilities` falls through every
branch and silently returns the default 0.0. -/
theorem c4_counterexample :
    Category.fromString "not_a_category" = none ∧
    lower_section_probabilities_str [1, 2, 3, 4, 5] freshScorecard "not_a_category" 2 = 0 := by
  constructor
  · decide
  · simp [lower_section_probabilities_str, Category.fromString]

/-- C4 amended: `determine_keep_positions` raises the invalid-category error
for every unrecognized string token, while the probability lookup silently
returns the default 0.0 for the same token (its docstring promises "0.0 if
marked/invalid"). -/
theorem c4_amended (s : String) (dice withheld : List ℕ) (score_card : Scorecard)
    (r : ℕ) (hinv : Category.fromString s = none) :
    determine_keep_positions_str dice withheld s =
      Except.error ("Invalid category " ++ s) ∧
    lower_section_probabilities_str dice score_card s r = 0 := by
  simp only [determine_keep_positions_str, lower_section_probabilities_str, hinv]
  exact ⟨trivial, trivial⟩

/-- Witness for C4 at the concrete token "not_a_real_category". -/
theorem c4_amended_witness :
    determine_keep_positions_str [1, 2, 3, 4, 5] [] "not_a_real_category" =
      Except.error ("Invalid category " ++ "not_a_real_category") ∧
    lower_section_probabilities_str [1, 2, 3, 4, 5] freshScorecard
      "not_a_real_category" 2 = 0 :=
  c4_amended "not_a_real_category" [1, 2, 3, 4, 5] [] freshScorecard 2 (by decide)

/-! ## C9: the urgency weight direction -/

lemma denominator375_pos (sc : Scorecard) : 0 < denominator375 sc := by
  show (0 : ℚ) <
    if 0 < 375 - (sc.compute_final_score : ℚ) then 375 - (sc.compute_final_score : ℚ)
    else 375
  split
  · assumption
  · norm_num

/-- The expected-count reduction for zero remaining rolls: projecting through
the identity leaves the one-hot state, whose mean is its index. -/
lemma exp_matId_oneHot {n : ℕ} (idx : Fin n) :
    (∑ i : Fin n, (i.val : ℚ) * matVec matId (oneHot idx) i) = idx.val := by
  have h : ∀ i : Fin n, matVec matId (oneHot idx) i = if i = idx then 1 else 0 := by
    intro i
    rw [matVec_oneHot]
    rfl
  calc (∑ i : Fin n, (i.val : ℚ) * matVec matId (oneHot idx) i)
      = ∑ i : Fin n, (if i = idx then (i.val : ℚ) else 0) := by
        refine Finset.sum_congr rfl fun i _ => ?_
        rw [h i]
        split <;> simp
    _ = if idx ∈ Finset.univ then (idx.val : ℚ) else 0 := Finset.sum_ite_eq' _ _ _
    _ = (idx.val : ℚ) := by simp

/-- The expected count from the upper-section Markov projection is
non-negative (the projected distribution has non-negative entries). -/
lemma upper_markov_exp_nonneg (dice : List ℕ) (move : Category) (r : ℕ) :
    0 ≤ (upper_section_markov dice move r).1 := by
  simp only [upper_section_markov]
  refine Finset.sum_nonneg fun i _ => ?_
  refine mul_nonneg (by positivity) ?_
  rw [matVec_oneHot]
  exact (colStochastic_matPow upper_colStochastic r).1 i _

/-- A scorecard far from the upper bonus: upper score 0, lower score 62. -/
def cardFarFromBonus : Scorecard :=
  ⟨0, fun c =>
    if c = .CHANCE then ⟨true, 27, 1⟩
    else if c = .THREE_OF_A_KIND then ⟨true, 20, 1⟩
    else if c = .FOUR_OF_A_KIND then ⟨true, 15, 1⟩
    else ⟨false, 0, 0⟩⟩

/-- A scorecard close to the upper bonus: upper score 62, lower score 0,
same final score 62 as `cardFarFromBonus`. -/
def cardNearBonus : Scorecard :=
  ⟨0, fun c =>
    if c = .SIXES then ⟨true, 30, 1⟩
    else if c = .FIVES then ⟨true, 20, 1⟩
    else if c = .FOURS then ⟨true, 12, 1⟩
    else ⟨false, 0, 0⟩⟩

/-- C9 counterexample: with equal final scores (62) the scorecard CLOSER to
the 63-point bonus (upper score 62, one point short) receives a STRICTLY
SMALLER expected-score feature than the scorecard with the full 63 points
still to go — the weight `0.2 * (remainingToBonus / 63)` grows with the
remaining distance, it does not scale inversely with it. -/
theorem c9_counterexample :
    cardFarFromBonus.compute_upper_score = 0 ∧
    cardNearBonus.compute_upper_score = 62 ∧
    cardFarFromBonus.compute_final_score = cardNearBonus.compute_final_score ∧
    upper_section_expected_score [1, 1, 1, 1, 1] cardNearBonus .ACES 0 <
      upper_section_expected_score [1, 1, 1, 1, 1] cardFarFromBonus .ACES 0 := by
  refine ⟨by decide, by decide, by decide, ?_⟩
  have hexp : (upper_section_markov [1, 1, 1, 1, 1] .ACES 0).1 = 5 := by
    have hc : dice_count [1, 1, 1, 1, 1] ((faces .ACES).getD 0) = 5 := by decide
    have hpow : matPow upper_count_t_matrix 0 = matId := rfl
    simp only [upper_section_markov, hc, hpow, exp_matId_oneHot]
    norm_num
  have hwF : urgency_weight cardFarFromBonus = 2 / 10 := by
    have h : cardFarFromBonus.compute_upper_score = 0 := by decide
    rw [urgency_weight, h]
    norm_num
  have hwN : urgency_weight cardNearBonus = 1 / 315 := by
    have h : cardNearBonus.compute_upper_score = 62 := by decide
    rw [urgency_weight, h]
    norm_num
  have hdF : denominator375 cardFarFromBonus = 313 := by
    have h : cardFarFromBonus.compute_final_score = 62 := by decide
    rw [denominator375, h]
    norm_num
  have hdN : denominator375 cardNearBonus = 313 := by
    have h : cardNearBonus.compute_final_score = 62 := by decide
    rw [denominator375, h]
    norm_num
  have hmF : cardFarFromBonus.is_category_marked .ACES = false := by decide
  have hmN : cardNearBonus.is_category_marked .ACES = false := by decide
  simp only [upper_section_expected_score, hwF, hwN, hdF, hdN, hexp, hmF, hmN, faces]
  norm_num

/-- C9 amended: the urgency weight equals `0.2 * (remainingToBonus / 63)` and
scales DIRECTLY with the remaining distance to the 63-point upper bonus: for
fixed dice, category, remaining rolls and final score, the scorecard whose
upper score is closer to 63 has the strictly smaller urgency weight and an
expected-score feature no larger (strictly smaller when the expected count is
positive). -/
theorem c9_amended (cFar cNear : Scorecard) (dice : List ℕ) (move : Category)
    (r : ℕ) (hface : (faces move).isSome = true)
    (hmFar : cFar.is_category_marked move = false)
    (hmNear : cNear.is_category_marked move = false)
    (hfin : cFar.compute_final_score = cNear.compute_final_score)
    (hcloser : cFar.compute_upper_score < cNear.compute_upper_score)
    (hnear63 : cNear.compute_upper_score ≤ 63) :
    urgency_weight cNear < urgency_weight cFar ∧
    upper_section_expected_score dice cNear move r ≤
      upper_section_expected_score dice cFar move r := by
  obtain ⟨f, hf⟩ := Option.isSome_iff_exists.mp hface
  have hwlt : urgency_weight cNear < urgency_weight cFar := by
    unfold urgency_weight
    have hlt : (cFar.compute_upper_score : ℚ) < cNear.compute_upper_score := by
      exact_mod_cast hcloser
    have hdiv : ((63 : ℚ) - cNear.compute_upper_score) / 63 <
        (63 - cFar.compute_upper_score) / 63 :=
      (div_lt_div_iff_of_pos_right (by norm_num)).mpr (by linarith)
    linarith
  refine ⟨hwlt, ?_⟩
  have hcond : ∀ sc : Scorecard, sc.is_category_marked move = false →
      upper_section_expected_score dice sc move r =
        (((faces move).getD 0 : ℚ) * (upper_section_markov dice move r).1 *
          (1 + urgency_weight sc)) / denominator375 sc := by
    intro sc hm
    unfold upper_section_expected_score
    rw [if_neg]
    push_neg
    constructor
    · rw [hf]
      simp
    · rw [hm]
      simp
  rw [hcond cNear hmNear, hcond cFar hmFar]
  have hdeq : denominator375 cNear = denominator375 cFar := by
    unfold denominator375
    rw [hfin]
  rw [hdeq]
  have hX : 0 ≤ ((faces move).getD 0 : ℚ) * (upper_section_markov dice move r).1 :=
    mul_nonneg (by positivity) (upper_markov_exp_nonneg dice move r)
  have hmulle :
      ((faces move).getD 0 : ℚ) * (upper_section_markov dice move r).1 *
          (1 + urgency_weight cNear) ≤
        ((faces move).getD 0 : ℚ) * (upper_section_markov dice move r).1 *
          (1 + urgency_weight cFar) := by
    refine mul_le_mul_of_nonneg_left ?_ hX
    linarith [hwlt]
  exact (div_le_div_iff_of_pos_right (denominator375_pos cFar)).mpr hmulle

/-- Witness for C9's amended theorem at the two concrete scorecards. -/
theorem c9_amended_witness :
    urgency_weight cardNearBonus < urgency_weight cardFarFromBonus ∧
    upper_section_expected_score [2, 3, 4, 5, 6] cardNearBonus .ACES 1 ≤
      upper_section_expected_score [2, 3, 4, 5, 6] cardFarFromBonus .ACES 1 :=
  c9_amended cardFarFromBonus cardNearBonus [2, 3, 4, 5, 6] .ACES 1
    (by decide) (by decide) (by decide) (by decide) (by decide) (by decide)

/-! ## C5: the full-house case split -/

lemma insertDesc_headD (x : ℕ) (l : List ℕ) :
    (insertDesc x l).headD 0 = max x (l.headD 0) := by
  cases l with
  | nil => simp [insertDesc]
  | cons y ys =>
    unfold insertDesc
    split
    · rename_i h
      simp [Nat.max_eq_left h]
    · rename_i h
      simp [Nat.max_eq_right (Nat.le_of_lt (Nat.lt_of_not_le h))]

lemma sortDesc_headD (l : List ℕ) : (sortDesc l).headD 0 = l.foldr max 0 := by
  induction l with
  | nil => rfl
  | cons x xs ih =>
    unfold sortDesc
    rw [insertDesc_headD, ih]
    rfl

lemma foldr_max_ge {l : List ℕ} {x : ℕ} (hx : x ∈ l) : x ≤ l.foldr max 0 := by
  induction l with
  | nil => cases hx
  | cons y ys ih =>
    rcases List.mem_cons.mp hx with h | h
    · subst h
      exact Nat.le_max_left _ _
    · exact le_trans (ih h) (Nat.le_max_right _ _)

lemma foldr_max_le {l : List ℕ} {b : ℕ} (hb : ∀ x ∈ l, x ≤ b) : l.foldr max 0 ≤ b := by
  induction l with
  | nil => exact Nat.zero_le b
  | cons y ys ih =>
    exact Nat.max_le.mpr
      ⟨hb y (List.mem_cons_self y ys), ih fun x hx => hb x (List.mem_cons_of_mem _ hx)⟩

lemma mem_firstOccs {a : ℕ} {l : List ℕ} : a ∈ firstOccs l ↔ a ∈ l := by
  unfold firstOccs
  rw [List.mem_reverse, List.mem_dedup, List.mem_reverse]

/-- The head of the padded sorted counts is the maximal face count. -/
lemma sorted_counts_headD (dice : List ℕ) :
    (sorted_counts dice).headD 0 =
      ((firstOccs dice).map (fun k => dice.count k)).foldr max 0 := by
  unfold sorted_counts
  rcases hs : sortDesc ((firstOccs dice).map (fun k => dice.count k)) with _ | ⟨c, cs⟩
  · have := sortDesc_headD ((firstOccs dice).map (fun k => dice.count k))
    rw [hs] at this
    simp at this ⊢
    omega
  · have := sortDesc_headD ((firstOccs dice).map (fun k => dice.count k))
    rw [hs] at this
    simpa using this

/-- The all-distinct fall-through case of `full_house` fires exactly on
duplicate-free hands. -/
lemma sorted_counts_lt_two_iff_nodup (dice : List ℕ) :
    (sorted_counts dice).headD 0 < 2 ↔ dice.Nodup := by
  rw [sorted_counts_headD, List.nodup_iff_count_le_one]
  constructor
  · intro h a
    by_cases ha : a ∈ dice
    · have hmem : dice.count a ∈ (firstOccs dice).map (fun k => dice.count k) :=
        List.mem_map.mpr ⟨a, mem_firstOccs.mpr ha, rfl⟩
      have := foldr_max_ge hmem
      omega
    · rw [List.count_eq_zero_of_not_mem ha]
      omega
  · intro h
    have : ((firstOccs dice).map (fun k => dice.count k)).foldr max 0 ≤ 1 := by
      refine foldr_max_le fun x hx => ?_
      obtain ⟨k, _, rfl⟩ := List.mem_map.mp hx
      exact h k
    omega

/-- C5: `full_house` follows the spec's ranked case split on the sorted,
zero-padded face counts (the two definitions agree on every input); on the
concrete full house [2,2,2,5,5] it returns 1.0 for every number of remaining
rolls; and its fall-through case is exactly the all-faces-distinct hands. -/
theorem c5_full_house_cases (dice : List ℕ) (r : ℕ) :
    full_house dice r = fullHouseSpec dice r ∧
    full_house [2, 2, 2, 5, 5] r = 1 ∧
    ((sorted_counts dice).headD 0 < 2 ↔ dice.Nodup) := by
  refine ⟨rfl, ?_, sorted_counts_lt_two_iff_nodup dice⟩
  have hc : sorted_counts [2, 2, 2, 5, 5] = [3, 2] := by decide
  unfold full_house
  rw [hc]
  norm_num

/-! ## C7: the keep/reroll output partitions the roll -/

lemma maskKeep_sublist (dice : List ℕ) (mask : List Bool) :
    (maskKeep dice mask).Sublist dice := by
  induction dice generalizing mask with
  | nil => simp [maskKeep]
  | cons d ds ih =>
    cases mask with
    | nil => simp [maskKeep]
    | cons m ms =>
      unfold maskKeep
      split
      · exact (ih ms).cons d
      · exact (ih ms).cons₂ d

lemma maskDrop_sublist (dice : List ℕ) (mask : List Bool) :
    (maskDrop dice mask).Sublist dice := by
  induction dice generalizing mask with
  | nil => simp [maskDrop]
  | cons d ds ih =>
    cases mask with
    | nil => simp [maskDrop]
    | cons m ms =>
      unfold maskDrop
      split
      · exact (ih ms).cons₂ d
      · exact (ih ms).cons d

lemma maskKeep_append_maskDrop_perm (dice : List ℕ) (mask : List Bool)
    (h : mask.length = dice.length) :
    (maskKeep dice mask ++ maskDrop dice mask).Perm dice := by
  induction dice generalizing mask with
  | nil => simp [maskKeep, maskDrop]
  | cons d ds ih =>
    cases mask with
    | nil => simp at h
    | cons m ms =>
      have hlen : ms.length = ds.length := by simpa using h
      unfold maskKeep maskDrop
      split
      · refine List.Perm.trans List.perm_middle ?_
        exact (ih ms hlen).cons d
      · exact ((ih ms hlen).cons d).trans (List.Perm.refl _)

lemma straight_keep_mask_length (avail dice : List ℕ) :
    (straight_keep_mask avail dice).length = dice.length := by
  induction dice generalizing avail with
  | nil => rfl
  | cons d ds ih =>
    unfold straight_keep_mask
    split
    · simp [ih]
    · simp [ih]

lemma keep_mask_length (dice withheld : List ℕ) (move : Category) :
    (keep_mask dice withheld move).length = dice.length := by
  unfold keep_mask
  split_ifs <;>
    simp [apply_ite List.length, straight_keep_mask_length, List.length_map,
      List.length_replicate]

/-- C7: for every recognized category, roll and withheld multiset, the
output of `determine_keep_positions` partitions the roll exactly: the new
withheld list is the original withheld followed by the kept dice (a
subsequence of the roll), the reroll list preserves the roll's positional
order, kept + reroll is a permutation (multiset equality) of the roll, and
withheld' + reroll is a permutation of withheld + roll. -/
theorem c7_keep_partition (move : Category) (dice withheld : List ℕ) :
    ∃ kept : List ℕ,
      (determine_keep_positions dice withheld move).1 = withheld ++ kept ∧
      kept.Sublist dice ∧
      (determine_keep_positions dice withheld move).2.Sublist dice ∧
      (kept ++ (determine_keep_positions dice withheld move).2).Perm dice ∧
      ((determine_keep_positions dice withheld move).1 ++
        (determine_keep_positions dice withheld move).2).Perm (withheld ++ dice) := by
  refine ⟨maskKeep dice (keep_mask dice withheld move), rfl,
    maskKeep_sublist _ _, maskDrop_sublist _ _,
    maskKeep_append_maskDrop_perm _ _ (keep_mask_length dice withheld move), ?_⟩
  show ((withheld ++ maskKeep dice (keep_mask dice withheld move)) ++
      maskDrop dice (keep_mask dice withheld move)).Perm (withheld ++ dice)
  rw [List.append_assoc]
  exact List.Perm.append_left withheld
    (maskKeep_append_maskDrop_perm _ _ (keep_mask_length dice withheld move))

/-! ## C1: probability 1.0 on outright-satisfied categories -/

/-- `reaching_x` returns the full mass 1 whenever the one-hot initial state
lands on the absorbing index 4 (count 0 via Python's `-1`, or count 5). -/
lemma reaching_x_eq_one_of_absorbing (dice : List ℕ) (f t r : ℕ)
    (hc : (dice_count dice f + 4) % 5 = 4) (ht : t ≤ 4) :
    reaching_x dice f t r = 1 := by
  simp only [reaching_x]
  have hidx : (⟨(dice_count dice f + 4) % 5, Nat.mod_lt _ (by norm_num)⟩ : Fin 5) =
      (4 : Fin 5) := by
    apply Fin.ext
    simpa using hc
  rw [hidx]
  unfold tailSum
  rw [Fin.sum_univ_five]
  rw [matVec_oneHot, matVec_oneHot, matVec_oneHot, matVec_oneHot, matVec_oneHot]
  rw [matPow_runs_absorbing, matPow_runs_absorbing, matPow_runs_absorbing,
    matPow_runs_absorbing, matPow_runs_absorbing]
  have h4 : ((4 : Fin 5) : ℕ) = 4 := rfl
  simp [h4, ht]

/-- The argmax fold of `maxCountFace` dominates its seed and every element of
the list it folds over. -/
lemma foldl_pickMax_ge (dice : List ℕ) (ks : List ℕ) (k : ℕ) :
    dice.count k ≤
      dice.count (ks.foldl
        (fun best f => if dice.count best < dice.count f then f else best) k) ∧
    ∀ f ∈ ks, dice.count f ≤
      dice.count (ks.foldl
        (fun best f => if dice.count best < dice.count f then f else best) k) := by
  induction ks generalizing k with
  | nil => simp
  | cons a as ih =>
    have hstep1 : dice.count k ≤
        dice.count (if dice.count k < dice.count a then a else k) := by
      split
      · omega
      · exact le_refl _
    have hstep2 : dice.count a ≤
        dice.count (if dice.count k < dice.count a then a else k) := by
      split
      · exact le_refl _
      · omega
    refine ⟨le_trans hstep1 (ih _).1, fun f hf => ?_⟩
    rcases List.mem_cons.mp hf with rfl | hmem
    · exact le_trans hstep2 (ih _).1
    · exact (ih _).2 f hmem

/-- `maxCountFace` attains the maximal count among the faces present. -/
lemma count_le_count_maxCountFace (dice : List ℕ) (f : ℕ) (hf : f ∈ dice) :
    dice.count f ≤ dice.count (maxCountFace dice) := by
  have hocc : f ∈ firstOccs dice := mem_firstOccs.mpr hf
  rcases h : firstOccs dice with _ | ⟨k, ks⟩
  · rw [h] at hocc
    cases hocc
  · rw [maxCountFace, h]
    rw [h] at hocc
    rcases List.mem_cons.mp hocc with rfl | hmem
    · exact (foldl_pickMax_ge dice ks f).1
    · exact (foldl_pickMax_ge dice ks k).2 f hmem

/-- A window loop returns 1 when its first window with nonzero overlap is
fully covered (small-straight shape: full coverage is 4). -/
lemma smallStraightLoop_eq_one (dice : List ℕ) (r : ℕ) (ws : List (List ℕ))
    (h : firstNonzeroWindowFull dice ws 4 = true) :
    smallStraightLoop dice r ws = 1 := by
  induction ws with
  | nil => simp [firstNonzeroWindowFull] at h
  | cons w rest ih =>
    unfold firstNonzeroWindowFull at h
    unfold smallStraightLoop
    by_cases h1 : 1 ≤ determine_straight_state dice w
    · rw [if_pos h1] at h ⊢
      have h4 : determine_straight_state dice w = 4 := by simpa using h
      rw [if_pos h4]
    · rw [if_neg h1] at h ⊢
      exact ih h

/-- Same for the large-straight loop (full coverage is 5). -/
lemma largeStraightLoop_eq_one (dice : List ℕ) (r : ℕ) (ws : List (List ℕ))
    (h : firstNonzeroWindowFull dice ws 5 = true) :
    largeStraightLoop dice r ws = 1 := by
  induction ws with
  | nil => simp [firstNonzeroWindowFull] at h
  | cons w rest ih =>
    unfold firstNonzeroWindowFull at h
    unfold largeStraightLoop
    by_cases h1 : 1 ≤ determine_straight_state dice w
    · rw [if_pos h1] at h ⊢
      have h5 : determine_straight_state dice w = 5 := by simpa using h
      rw [if_pos h5]
    · rw [if_neg h1] at h ⊢
      exact ih h

/-- C1 amended: on a fresh (unmarked) scorecard, every lower-section category
that the hand already satisfies outright gets probability exactly 1.0 — where
for the straights "outright" must be read against the source's window scan:
the FIRST window with nonzero overlap is fully covered.  (As
`c1_counterexample` shows, a hand satisfying a straight only through a later
window can get less than 1.0, so the claim's unrestricted form fails.) -/
theorem c1_amended (dice : List ℕ) (move : Category) (r : ℕ)
    (h5 : dice.length = 5)
    (hout : lowerSatisfiedOutright dice move = true) :
    lower_section_probabilities dice freshScorecard move r = 1 := by
  have hfresh : ∀ c, freshScorecard.is_category_marked c = false := fun c => rfl
  cases move with
  | ACES => simp [lowerSatisfiedOutright] at hout
  | TWOS => simp [lowerSatisfiedOutright] at hout
  | THREES => simp [lowerSatisfiedOutright] at hout
  | FOURS => simp [lowerSatisfiedOutright] at hout
  | FIVES => simp [lowerSatisfiedOutright] at hout
  | SIXES => simp [lowerSatisfiedOutright] at hout
  | THREE_OF_A_KIND =>
    have hany := List.any_eq_true.mp hout
    obtain ⟨d, hd, hcount⟩ := hany
    have hc3 : 3 ≤ dice.count d := of_decide_eq_true hcount
    have hmax : 3 ≤ dice.count (maxCountFace dice) :=
      le_trans hc3 (count_le_count_maxCountFace dice d hd)
    simp [lower_section_probabilities, hfresh, simple_three_of_a_kind, dice_count, hmax]
  | FOUR_OF_A_KIND =>
    obtain ⟨d, hd, hcount⟩ := List.any_eq_true.mp hout
    have hc4 : 4 ≤ dice.count d := of_decide_eq_true hcount
    have hmax : 4 ≤ dice.count (maxCountFace dice) :=
      le_trans hc4 (count_le_count_maxCountFace dice d hd)
    simp [lower_section_probabilities, hfresh, simple_four_of_a_kind, dice_count, hmax]
  | FULL_HOUSE =>
    have hfh : 3 ≤ (sorted_counts dice).headD 0 ∧
        2 ≤ ((sorted_counts dice).drop 1).headD 0 := by
      simpa [lowerSatisfiedOutright] using hout
    have hfull : full_house dice r = 1 := by
      simp only [full_house]
      rw [if_pos hfh]
    simp [lower_section_probabilities, hfresh, hfull]
  | SMALL_STRAIGHT =>
    have h1 := smallStraightLoop_eq_one dice r [[1, 2, 3, 4], [2, 3, 4, 5], [3, 4, 5, 6]]
      (by simpa [lowerSatisfiedOutright] using hout)
    simp [lower_section_probabilities, hfresh, determine_small_straight_probability, h1]
  | LARGE_STRAIGHT =>
    have h1 := largeStraightLoop_eq_one dice r [[1, 2, 3, 4, 5], [2, 3, 4, 5, 6]]
      (by simpa [lowerSatisfiedOutright] using hout)
    simp [lower_section_probabilities, hfresh, determine_large_straight_probability, h1]
  | YAHTZEE =>
    obtain ⟨d, hd, hcount⟩ := List.any_eq_true.mp hout
    have hc5 : dice.count d = 5 := of_decide_eq_true hcount
    have hle : dice.count (maxCountFace dice) ≤ 5 := by
      calc dice.count (maxCountFace dice) ≤ dice.length := List.count_le_length _ _
        _ = 5 := h5
    have hge : 5 ≤ dice.count (maxCountFace dice) := by
      rw [← hc5]
      exact count_le_count_maxCountFace dice d hd
    have heq : dice_count dice (maxCountFace dice) = 5 := le_antisymm hle hge
    have := reaching_x_eq_one_of_absorbing dice (maxCountFace dice) 4 r
      (by rw [heq]) (by norm_num)
    simp [lower_section_probabilities, hfresh, yahtzee, this]
  | CHANCE =>
    simp [lower_section_probabilities, hfresh]

/-- Witness for C1's amended theorem: four matching dice, target
four-of-a-kind, one roll remaining. -/
theorem c1_amended_witness :
    lower_section_probabilities [2, 2, 2, 2, 5] freshScorecard .FOUR_OF_A_KIND 1 = 1 :=
  c1_amended [2, 2, 2, 2, 5] .FOUR_OF_A_KIND 1 (by decide) (by decide)

/-! ## C6: the small-straight keep rule -/

/-- The source's coverage measure (`np.unique(combined[np.isin(combined,
window)]).size`) equals the claim's (count of distinct window values present
in the combined dice), for a duplicate-free window. -/
lemma determine_straight_state_eq_coverage (l w : List ℕ) (hw : w.Nodup) :
    determine_straight_state l w = windowCoverage l w := by
  unfold determine_straight_state windowCoverage
  rw [← List.card_toFinset]
  rw [← List.toFinset_card_of_nodup (hw.filter _)]
  rw [List.toFinset_filter, List.toFinset_filter]
  congr 1
  ext x
  simp [List.contains]
  tauto

/-- The masked walk of the source computes exactly the claim's greedy
keep/reroll split. -/
lemma maskKeep_straight_keep_mask (avail dice : List ℕ) :
    maskKeep dice (straight_keep_mask avail dice) = greedyKeepDice avail dice ∧
    maskDrop dice (straight_keep_mask avail dice) = greedyRerollDice avail dice := by
  induction dice generalizing avail with
  | nil => exact ⟨rfl, rfl⟩
  | cons d ds ih =>
    by_cases h : avail.contains d = true
    · simp only [straight_keep_mask, greedyKeepDice, greedyRerollDice, h,
        if_true, maskKeep, maskDrop, if_false, Bool.false_eq_true]
      exact ⟨congrArg (d :: ·) (ih _).1, (ih _).2⟩
    · simp only [straight_keep_mask, greedyKeepDice, greedyRerollDice, h,
        if_false, maskKeep, maskDrop, if_true]
      exact ⟨(ih _).1, congrArg (d :: ·) (ih _).2⟩

/-- C6: for the small-straight target the keep decision follows the claim's
rule — scan windows 1-4, 2-5, 3-6 in order, pick the first with maximal
combined coverage, then greedily keep dice matching window values not yet
withheld — and on the hand [1,2,3,4,6] with nothing withheld it keeps
{1,2,3,4} and rerolls [6]. -/
theorem c6_small_straight_keep (dice withheld : List ℕ) :
    determine_keep_positions dice withheld .SMALL_STRAIGHT =
      smallStraightKeepSpec dice withheld ∧
    determine_keep_positions [1, 2, 3, 4, 6] [] .SMALL_STRAIGHT =
      ([1, 2, 3, 4], [6]) := by
  refine ⟨?_, by decide⟩
  have hsel : keep_mask dice withheld .SMALL_STRAIGHT =
      (if max (determine_straight_state (dice ++ withheld) [1, 2, 3, 4])
            (max (determine_straight_state (dice ++ withheld) [2, 3, 4, 5])
              (determine_straight_state (dice ++ withheld) [3, 4, 5, 6])) =
          determine_straight_state (dice ++ withheld) [1, 2, 3, 4] then
         straight_keep_mask ([1, 2, 3, 4].filter (fun v => ¬ withheld.contains v)) dice
       else if max (determine_straight_state (dice ++ withheld) [1, 2, 3, 4])
            (max (determine_straight_state (dice ++ withheld) [2, 3, 4, 5])
              (determine_straight_state (dice ++ withheld) [3, 4, 5, 6])) =
          determine_straight_state (dice ++ withheld) [2, 3, 4, 5] then
         straight_keep_mask ([2, 3, 4, 5].filter (fun v => ¬ withheld.contains v)) dice
       else if max (determine_straight_state (dice ++ withheld) [1, 2, 3, 4])
            (max (determine_straight_state (dice ++ withheld) [2, 3, 4, 5])
              (determine_straight_state (dice ++ withheld) [3, 4, 5, 6])) =
          determine_straight_state (dice ++ withheld) [3, 4, 5, 6] then
         straight_keep_mask ([3, 4, 5, 6].filter (fun v => ¬ withheld.contains v)) dice
       else List.replicate dice.length true) := rfl
  have e1 := determine_straight_state_eq_coverage (dice ++ withheld) [1, 2, 3, 4] (by decide)
  have e2 := determine_straight_state_eq_coverage (dice ++ withheld) [2, 3, 4, 5] (by decide)
  have e3 := determine_straight_state_eq_coverage (dice ++ withheld) [3, 4, 5, 6] (by decide)
  simp only [determine_keep_positions, smallStraightKeepSpec]
  rw [hsel]
  rw [e1, e2, e3]
  set c1 := windowCoverage (dice ++ withheld) [1, 2, 3, 4] with hc1
  set c2 := windowCoverage (dice ++ withheld) [2, 3, 4, 5] with hc2
  set c3 := windowCoverage (dice ++ withheld) [3, 4, 5, 6] with hc3
  by_cases h1 : max c1 (max c2 c3) = c1
  · have h1p : c1 = max c1 (max c2 c3) := h1.symm
    rw [if_pos h1, if_pos h1p]
    exact Prod.ext (congrArg (withheld ++ ·) (maskKeep_straight_keep_mask _ dice).1)
      (maskKeep_straight_keep_mask _ dice).2
  · have h1n : ¬ (c1 = max c1 (max c2 c3)) := fun h => h1 h.symm
    rw [if_neg h1, if_neg h1n]
    by_cases h2 : max c1 (max c2 c3) = c2
    · have h2p : c2 = max c1 (max c2 c3) := h2.symm
      rw [if_pos h2, if_pos h2p]
      exact Prod.ext (congrArg (withheld ++ ·) (maskKeep_straight_keep_mask _ dice).1)
        (maskKeep_straight_keep_mask _ dice).2
    · have h2n : ¬ (c2 = max c1 (max c2 c3)) := fun h => h2 h.symm
      rw [if_neg h2, if_neg h2n]
      have h3 : max c1 (max c2 c3) = c3 := by
        rcases max_choice c1 (max c2 c3) with h | h
        · exact absurd h h1
        · rcases max_choice c2 c3 with h' | h'
          · exact absurd (h.trans h') h2
          · exact h.trans h'
      rw [if_pos h3]
      exact Prod.ext (congrArg (withheld ++ ·) (maskKeep_straight_keep_mask _ dice).1)
        (maskKeep_straight_keep_mask _ dice).2

/-! ## C8: every probability lands in [0, 1] -/

lemma simple_three_bounds (dice : List ℕ) (f r : ℕ) :
    0 ≤ simple_three_of_a_kind dice f r ∧ simple_three_of_a_kind dice f r ≤ 1 := by
  unfold simple_three_of_a_kind
  split
  · norm_num
  · exact reaching_x_bounds dice f 2 r

lemma simple_four_bounds (dice : List ℕ) (f r : ℕ) :
    0 ≤ simple_four_of_a_kind dice f r ∧ simple_four_of_a_kind dice f r ≤ 1 := by
  unfold simple_four_of_a_kind
  split
  · norm_num
  · exact reaching_x_bounds dice f 3 r

lemma full_house_bounds (dice : List ℕ) (r : ℕ) (hr : r ≤ 2) :
    0 ≤ full_house dice r ∧ full_house dice r ≤ 1 := by
  have h56 : (0 : ℚ) ≤ (5 / 6 : ℚ) ^ r ∧ (5 / 6 : ℚ) ^ r ≤ 1 :=
    ⟨pow_nonneg (by norm_num) r, pow_le_one₀ (by norm_num) (by norm_num)⟩
  have h46 : (0 : ℚ) ≤ (4 / 6 : ℚ) ^ r ∧ (4 / 6 : ℚ) ^ r ≤ 1 :=
    ⟨pow_nonneg (by norm_num) r, pow_le_one₀ (by norm_num) (by norm_num)⟩
  have h120 : (0 : ℚ) ≤ (120 / 216 : ℚ) ^ r ∧ (120 / 216 : ℚ) ^ r ≤ 1 :=
    ⟨pow_nonneg (by norm_num) r, pow_le_one₀ (by norm_num) (by norm_num)⟩
  have hrc : (r : ℚ) ≤ 2 := by exact_mod_cast hr
  have hrc0 : (0 : ℚ) ≤ (r : ℚ) := by positivity
  simp only [full_house]
  split_ifs
  · norm_num
  · constructor <;> nlinarith [h56.1, h56.2]
  · constructor <;> nlinarith [h46.1, h46.2]
  · have hx := reaching_x_bounds dice (maxCountFace dice) 2 r
    constructor
    · apply mul_nonneg hx.1
      nlinarith [h120.2]
    · calc reaching_x dice (maxCountFace dice) 2 r * (1 - (120 / 216 : ℚ) ^ r)
          ≤ 1 * 1 := by
            apply mul_le_mul hx.2 (by nlinarith [h120.1]) (by nlinarith [h120.2]) (by norm_num)
        _ = 1 := by norm_num
  · constructor <;> nlinarith

/-- All row-3 entries of the small-straight matrix powers needed for
`r ∈ {0, 1, 2}` lie in [0, 1] (the matrix itself is not stochastic, so this
is a finite check, not a consequence of a general lemma). -/
lemma straight_entry_bounds (r : ℕ) (hr : r ≤ 2) (j : Fin 4) :
    0 ≤ matPow straight_t_matrix r 3 j ∧ matPow straight_t_matrix r 3 j ≤ 1 := by
  interval_cases r <;> fin_cases j <;>
    constructor <;>
      simp [matPow, matMul, matId, straight_t_matrix, Fin.sum_univ_succ] <;>
        norm_num

lemma large_straight_entry_bounds (r : ℕ) (hr : r ≤ 2) (j : Fin 5) :
    0 ≤ matPow large_straight_t_matrix r 4 j ∧ matPow large_straight_t_matrix r 4 j ≤ 1 := by
  interval_cases r <;> fin_cases j <;>
    constructor <;>
      simp [matPow, matMul, matId, large_straight_t_matrix, Fin.sum_univ_succ] <;>
        norm_num

lemma smallStraightLoop_bounds (dice : List ℕ) (r : ℕ) (hr : r ≤ 2)
    (ws : List (List ℕ)) :
    0 ≤ smallStraightLoop dice r ws ∧ smallStraightLoop dice r ws ≤ 1 := by
  induction ws with
  | nil => norm_num [smallStraightLoop]
  | cons w rest ih =>
    simp only [smallStraightLoop]
    split_ifs
    · norm_num
    · rw [matVec_oneHot]
      exact straight_entry_bounds r hr _
    · exact ih

lemma largeStraightLoop_bounds (dice : List ℕ) (r : ℕ) (hr : r ≤ 2)
    (ws : List (List ℕ)) :
    0 ≤ largeStraightLoop dice r ws ∧ largeStraightLoop dice r ws ≤ 1 := by
  induction ws with
  | nil => norm_num [largeStraightLoop]
  | cons w rest ih =>
    simp only [largeStraightLoop]
    split_ifs
    · norm_num
    · rw [matVec_oneHot]
      exact large_straight_entry_bounds r hr _
    · exact ih

/-- C8: the upper-section probability and every branch of the lower-section
probability dispatch return values in the closed interval [0, 1], for every
hand, scorecard, category and r ∈ {0, 1, 2}. -/
theorem c8_probabilities_in_unit_interval (dice : List ℕ) (score_card : Scorecard)
    (move : Category) (r : ℕ) (hr : r ≤ 2) :
    0 ≤ upper_section_probability dice score_card move r ∧
    upper_section_probability dice score_card move r ≤ 1 ∧
    0 ≤ lower_section_probabilities dice score_card move r ∧
    lower_section_probabilities dice score_card move r ≤ 1 := by
  have hupper : 0 ≤ upper_section_probability dice score_card move r ∧
      upper_section_probability dice score_card move r ≤ 1 := by
    unfold upper_section_probability
    split_ifs
    · norm_num
    · simp only [upper_section_markov]
      exact tailSum_col_bounds (colStochastic_matPow upper_colStochastic r) _ _
  have hlower : 0 ≤ lower_section_probabilities dice score_card move r ∧
      lower_section_probabilities dice score_card move r ≤ 1 := by
    unfold lower_section_probabilities
    split_ifs
    · exact simple_three_bounds dice (maxCountFace dice) r
    · exact simple_four_bounds dice (maxCountFace dice) r
    · exact full_house_bounds dice r hr
    · exact smallStraightLoop_bounds dice r hr _
    · exact largeStraightLoop_bounds dice r hr _
    · exact reaching_x_bounds dice (maxCountFace dice) 4 r
    · norm_num
    · norm_num
  exact ⟨hupper.1, hupper.2, hlower.1, hlower.2⟩

/-- Witness for C8 at a concrete hand, scorecard, category and roll count. -/
theorem c8_probabilities_in_unit_interval_witness :
    0 ≤ upper_section_probability [1, 2, 3, 4, 6] freshScorecard .SMALL_STRAIGHT 2 ∧
    upper_section_probability [1, 2, 3, 4, 6] freshScorecard .SMALL_STRAIGHT 2 ≤ 1 ∧
    0 ≤ lower_section_probabilities [1, 2, 3, 4, 6] freshScorecard .SMALL_STRAIGHT 2 ∧
    lower_section_probabilities [1, 2, 3, 4, 6] freshScorecard .SMALL_STRAIGHT 2 ≤ 1 :=
  c8_probabilities_in_unit_interval [1, 2, 3, 4, 6] freshScorecard .SMALL_STRAIGHT 2
    (by decide)
